import Mathlib

/-!
Verification development for the Migration-Assistant repository.

The Python sources under scrutiny are shallowly embedded below:
  * config_template.py   : variable loading/merging and template substitution,
  * validate_variables.py: the merged-namespace loader,
  * setup_wizard.py      : get_input, validate_ip_address, collect_peer_addresses,
  * standardize_variables.py : dry-run gating of update_file_variables,
  * yaml-autofix.py      : the auto_fix_yaml_file fix pipeline.

Python strings are Lean String / List Char; machine-independent external
library calls (json.loads/json.dumps, socket.inet_aton) are embedded from
their documented semantics (json: RFC-8259 grammar as implemented by the
CPython json module, numbers restricted to integers; inet_aton: the
numbers-and-dots parser of glibc resolv/inet_addr.c, which CPython wraps).
yaml.safe_load is not embedded: theorems about yaml-autofix.py take the
validity oracle as an explicit parameter of type List Char → Bool.
-/

namespace MA

/-- A scalar Python value as produced by YAML loading of a config file
(the config schema is flat string-to-string, but ints/bools/None can occur). -/
inductive PyVal where
  | str (s : String)
  | int (n : Int)
  | bool (b : Bool)
  | none
deriving DecidableEq, Repr

/-- Python str() on a scalar value. -/
def pyStr : PyVal → String
  | .str s => s
  | .int n => toString n
  | .bool b => if b then "True" else "False"
  | .none => "None"

/-- Python dict lookup d.get(k) / d[k]: first (unique) matching key. -/
def dictGet {α : Type} : List (String × α) → String → Option α
  | [], _ => Option.none
  | (k, v) :: rest, key => if key = k then some v else dictGet rest key

/-- One assignment d[k] = v of Python dict semantics: an existing key keeps
its position and gets the new value; a new key is appended. -/
def updOne {α : Type} : List (String × α) → String → α → List (String × α)
  | [], k, v => [(k, v)]
  | (k1, v1) :: rest, k, v =>
      if k1 = k then (k, v) :: rest else (k1, v1) :: updOne rest k v

/-- Python dict.update(upd) applied to base. -/
def dictUpdate {α : Type} (base upd : List (String × α)) : List (String × α) :=
  upd.foldl (fun d p => updOne d p.1 p.2) base

/-- The merge in config_template._load_all_vars:
merged = \x7b\x7d; merged.update(variables); merged.update(secrets). -/
def load_all_vars_merge (varsMap secretsMap : List (String × PyVal)) :
    List (String × PyVal) :=
  dictUpdate (dictUpdate [] varsMap) secretsMap

/-- The merge in validate_variables.load_config_variables:
return \x7b**variables, **secrets\x7d (build a fresh dict inserting the
variables entries first, then the secrets entries). -/
def load_config_variables_merge (varsMap secretsMap : List (String × PyVal)) :
    List (String × PyVal) :=
  dictUpdate (dictUpdate [] varsMap) secretsMap

/-! JSON, as used by config_template.py and setup_wizard.py through the
CPython json module.  Numbers are embedded as integers only; templates whose
parse would need float numerals are outside the embedded fragment. -/

/-- Left brace character (written by code point to keep string scanning simple). -/
def lcurl : Char := Char.ofNat 123

/-- Right brace character. -/
def rcurl : Char := Char.ofNat 125

/-- A JSON value. -/
inductive JVal where
  | null
  | bool (b : Bool)
  | int (n : Int)
  | str (s : String)
  | arr (xs : List JVal)
  | obj (kvs : List (String × JVal))

/-- Hex digit characters, lowercase, as CPython emits in escapes. -/
def hexChar (n : Nat) : Char :=
  if n < 10 then Char.ofNat (48 + n) else Char.ofNat (87 + n)

/-- Four-hex-digit rendering of a code unit, for the json escape form. -/
def hex4 (n : Nat) : List Char :=
  [hexChar (n / 4096 % 16), hexChar (n / 256 % 16), hexChar (n / 16 % 16), hexChar (n % 16)]

/-- json.dumps escaping of one character (ensure_ascii=True, the default):
quote, backslash and the short control escapes, other controls and
non-ASCII as escape-u sequences, astral characters as surrogate pairs. -/
def jEscapeChar (c : Char) : List Char :=
  if c = '"' then ['\\', '"']
  else if c = '\\' then ['\\', '\\']
  else if c = '\n' then ['\\', 'n']
  else if c = '\r' then ['\\', 'r']
  else if c = '\t' then ['\\', 't']
  else if c = '\x08' then ['\\', 'b']
  else if c = '\x0c' then ['\\', 'f']
  else if c.toNat < 0x20 then '\\' :: 'u' :: hex4 c.toNat
  else if c.toNat ≤ 0x7e then [c]
  else if c.toNat ≤ 0xffff then '\\' :: 'u' :: hex4 c.toNat
  else
    let n := c.toNat - 0x10000
    ('\\' :: 'u' :: hex4 (0xd800 + n / 0x400)) ++ ('\\' :: 'u' :: hex4 (0xdc00 + n % 0x400))

/-- json.dumps rendering of a string literal, quotes included. -/
def jQuote (s : String) : List Char :=
  '"' :: (s.data.flatMap jEscapeChar) ++ ['"']

mutual

/-- json.dumps(v) with default separators (comma-space, colon-space). -/
def jdump : JVal → List Char
  | .null => "null".data
  | .bool true => "true".data
  | .bool false => "false".data
  | .int n => (toString n).data
  | .str s => jQuote s
  | .arr xs => '[' :: jdumpElems xs ++ [']']
  | .obj kvs => lcurl :: jdumpMembers kvs ++ [rcurl]

def jdumpElems : List JVal → List Char
  | [] => []
  | [x] => jdump x
  | x :: xs => jdump x ++ ',' :: ' ' :: jdumpElems xs

def jdumpMembers : List (String × JVal) → List Char
  | [] => []
  | [(k, v)] => jQuote k ++ ':' :: ' ' :: jdump v
  | (k, v) :: kvs => (jQuote k ++ ':' :: ' ' :: jdump v) ++ ',' :: ' ' :: jdumpMembers kvs

end

/-- List of n space characters. -/
def spaces (n : Nat) : List Char := List.replicate n ' '

mutual

/-- json.dumps(v, indent=2) at current indentation level ind:
containers spread one element per line, two extra spaces per level;
the item separator becomes a bare comma before the newline. -/
def jdumpInd : JVal → Nat → List Char
  | .null, _ => "null".data
  | .bool true, _ => "true".data
  | .bool false, _ => "false".data
  | .int n, _ => (toString n).data
  | .str s, _ => jQuote s
  | .arr [], _ => ['[', ']']
  | .arr (x :: xs), ind =>
      '[' :: '\n' :: spaces (ind + 2) ++ jdumpIndElems (x :: xs) (ind + 2) ++
        '\n' :: spaces ind ++ [']']
  | .obj [], _ => [lcurl, rcurl]
  | .obj (kv :: kvs), ind =>
      lcurl :: '\n' :: spaces (ind + 2) ++ jdumpIndMembers (kv :: kvs) (ind + 2) ++
        '\n' :: spaces ind ++ [rcurl]

def jdumpIndElems : List JVal → Nat → List Char
  | [], _ => []
  | [x], ind => jdumpInd x ind
  | x :: y :: xs, ind =>
      jdumpInd x ind ++ ',' :: '\n' :: spaces ind ++ jdumpIndElems (y :: xs) ind

def jdumpIndMembers : List (String × JVal) → Nat → List Char
  | [], _ => []
  | [(k, v)], ind => jQuote k ++ ':' :: ' ' :: jdumpInd v ind
  | (k, v) :: kv :: kvs, ind =>
      (jQuote k ++ ':' :: ' ' :: jdumpInd v ind) ++ ',' :: '\n' :: spaces ind ++
        jdumpIndMembers (kv :: kvs) ind

end

/-- json.dumps(v) as a String. -/
def jsonDumps (v : JVal) : String := ⟨jdump v⟩

/-- json.dumps(v, indent=2) as a String. -/
def jsonDumpsIndent2 (v : JVal) : String := ⟨jdumpInd v 0⟩

/-- JSON whitespace (the only characters the decoder skips between tokens). -/
def isJWs (c : Char) : Bool := c = ' ' ∨ c = '\t' ∨ c = '\n' ∨ c = '\r'

/-- Skip JSON whitespace. -/
def skipWs (cs : List Char) : List Char := cs.dropWhile isJWs

/-- Numeric value of a hex digit character. -/
def hexVal (c : Char) : Option Nat :=
  if '0' ≤ c ∧ c ≤ '9' then some (c.toNat - 48)
  else if 'a' ≤ c ∧ c ≤ 'f' then some (c.toNat - 87)
  else if 'A' ≤ c ∧ c ≤ 'F' then some (c.toNat - 55)
  else Option.none

/-- Decode one backslash escape (the backslash itself already consumed):
returns the decoded character and how many characters were consumed.
Escape-u low/high surrogate pairs are combined as the CPython decoder does;
an unpaired surrogate is rejected (Lean Char holds only scalar values). -/
def unescape1 : List Char → Option (Char × Nat)
  | [] => Option.none
  | e :: r =>
    if e = '"' then some ('"', 1)
    else if e = '\\' then some ('\\', 1)
    else if e = '/' then some ('/', 1)
    else if e = 'b' then some ('\x08', 1)
    else if e = 'f' then some ('\x0c', 1)
    else if e = 'n' then some ('\n', 1)
    else if e = 'r' then some ('\r', 1)
    else if e = 't' then some ('\t', 1)
    else if e = 'u' then
      match r with
      | a :: b :: c :: d :: r2 =>
        match hexVal a, hexVal b, hexVal c, hexVal d with
        | some ha, some hb, some hc, some hd =>
          let n := ha * 4096 + hb * 256 + hc * 16 + hd
          if n < 0xd800 ∨ 0xdfff < n then some (Char.ofNat n, 5)
          else if n ≤ 0xdbff then
            match r2 with
            | '\\' :: 'u' :: a2 :: b2 :: c2 :: d2 :: _ =>
              match hexVal a2, hexVal b2, hexVal c2, hexVal d2 with
              | some ha2, some hb2, some hc2, some hd2 =>
                let m := ha2 * 4096 + hb2 * 256 + hc2 * 16 + hd2
                if 0xdc00 ≤ m ∧ m ≤ 0xdfff then
                  some (Char.ofNat (0x10000 + (n - 0xd800) * 0x400 + (m - 0xdc00)), 11)
                else Option.none
              | _, _, _, _ => Option.none
            | _ => Option.none
          else Option.none
        | _, _, _, _ => Option.none
      | _ => Option.none
    else Option.none

/-- Scan a JSON string literal body (after the opening quote), with fuel:
returns the decoded content and the input remaining after the closing quote.
Raw control characters below 0x20 are rejected (strict mode, the json module
default).  Every step consumes at least one character, so fuel one beyond
the input length behaves as the unbounded scan. -/
def parseStringBodyF : Nat → List Char → Option (List Char × List Char)
  | 0, _ => Option.none
  | _ + 1, [] => Option.none
  | f + 1, c :: rest =>
    if c = '"' then some ([], rest)
    else if c = '\\' then
      match unescape1 rest with
      | some (ch, n) =>
        match parseStringBodyF f (rest.drop n) with
        | some (s, r2) => some (ch :: s, r2)
        | Option.none => Option.none
      | Option.none => Option.none
    else if c.toNat < 0x20 then Option.none
    else
      match parseStringBodyF f rest with
      | some (s, r2) => some (c :: s, r2)
      | Option.none => Option.none

/-- The string-literal scan at ample fuel. -/
def parseStringBody (cs : List Char) : Option (List Char × List Char) :=
  parseStringBodyF (cs.length + 1) cs

/-- Parse a JSON number (integers only in this embedding): optional minus,
then either a single zero or a nonzero-led digit run, per the json grammar. -/
def parseJNum (cs : List Char) : Option (Int × List Char) :=
  let core : List Char → Option (Nat × List Char) := fun l =>
    match l with
    | [] => Option.none
    | c :: r =>
      if c = '0' then some (0, r)
      else if c.isDigit then
        let ds := (c :: r).takeWhile Char.isDigit
        some (ds.foldl (fun a d => a * 10 + (d.toNat - 48)) 0, (c :: r).dropWhile Char.isDigit)
      else Option.none
  match cs with
  | '-' :: rest =>
      match core rest with
      | some (n, r) => some (-(n : Int), r)
      | Option.none => Option.none
  | _ =>
      match core cs with
      | some (n, r) => some ((n : Int), r)
      | Option.none => Option.none

mutual

/-- Parse one JSON value (leading whitespace already skipped), with fuel
bounding the recursion depth. -/
def parseValue : Nat → List Char → Option (JVal × List Char)
  | 0, _ => Option.none
  | _ + 1, [] => Option.none
  | f + 1, c :: r =>
    if c = lcurl then
      match skipWs r with
      | c2 :: r2 =>
          if c2 = rcurl then some (.obj [], r2)
          else
            match parseMembers f (c2 :: r2) with
            | some (kvs, r3) => some (.obj kvs, r3)
            | Option.none => Option.none
      | [] => Option.none
    else if c = '[' then
      match skipWs r with
      | ']' :: r2 => some (.arr [], r2)
      | r1 =>
          match parseElems f r1 with
          | some (xs, r2) => some (.arr xs, r2)
          | Option.none => Option.none
    else if c = '"' then
      match parseStringBody r with
      | some (s, r2) => some (.str ⟨s⟩, r2)
      | Option.none => Option.none
    else if c = 't' then
      match r with
      | 'r' :: 'u' :: 'e' :: r2 => some (.bool true, r2)
      | _ => Option.none
    else if c = 'f' then
      match r with
      | 'a' :: 'l' :: 's' :: 'e' :: r2 => some (.bool false, r2)
      | _ => Option.none
    else if c = 'n' then
      match r with
      | 'u' :: 'l' :: 'l' :: r2 => some (.null, r2)
      | _ => Option.none
    else
      match parseJNum (c :: r) with
      | some (n, r2) => some (.int n, r2)
      | Option.none => Option.none

/-- Parse the elements of a non-empty JSON array (at the first element). -/
def parseElems : Nat → List Char → Option (List JVal × List Char)
  | 0, _ => Option.none
  | f + 1, cs =>
    match parseValue f cs with
    | some (v, r) =>
      (match skipWs r with
       | ',' :: r2 =>
           match parseElems f (skipWs r2) with
           | some (vs, r3) => some (v :: vs, r3)
           | Option.none => Option.none
       | ']' :: r2 => some ([v], r2)
       | _ => Option.none)
    | Option.none => Option.none

/-- Parse the members of a non-empty JSON object (at the first key). -/
def parseMembers : Nat → List Char → Option (List (String × JVal) × List Char)
  | 0, _ => Option.none
  | f + 1, cs =>
    match cs with
    | '"' :: r =>
      (match parseStringBody r with
       | some (k, r1) =>
         (match skipWs r1 with
          | ':' :: r2 =>
            (match parseValue f (skipWs r2) with
             | some (v, r3) =>
               (match skipWs r3 with
                | ',' :: r4 =>
                    (match parseMembers f (skipWs r4) with
                     | some (kvs, r5) => some ((⟨k⟩, v) :: kvs, r5)
                     | Option.none => Option.none)
                | c4 :: r4 =>
                    if c4 = rcurl then some ([(⟨k⟩, v)], r4) else Option.none
                | [] => Option.none)
             | Option.none => Option.none)
          | _ => Option.none)
       | Option.none => Option.none)
    | _ => Option.none

end

/-- json.loads: skip whitespace, parse one value, require only whitespace
after it.  The fuel is ample for any input (each nesting level consumes at
least one character).  Returns none where the CPython call raises
JSONDecodeError (or where it would build a float, excluded here). -/
def jsonLoads (s : String) : Option JVal :=
  let cs := skipWs s.data
  match parseValue (cs.length + 2) cs with
  | some (v, r) => if skipWs r = [] then some v else Option.none
  | Option.none => Option.none

/-! Template substitution: config_template.py -/

/-- Python str.replace(pat, repl) for a non-empty pattern, with fuel:
replace non-overlapping occurrences left to right.  (The scripts only ever
pass non-empty patterns; the empty-pattern branch is the identity here.
Each step consumes at least one character, so fuel one beyond the input
length behaves as the unbounded scan.) -/
def pyReplaceF : Nat → List Char → List Char → List Char → List Char
  | 0, s, _, _ => s
  | _ + 1, [], _, _ => []
  | f + 1, c :: rest, pat, repl =>
    if pat ≠ [] ∧ pat.isPrefixOf (c :: rest) then
      repl ++ pyReplaceF f ((c :: rest).drop pat.length) pat repl
    else
      c :: pyReplaceF f rest pat repl

/-- Python str.replace at ample fuel. -/
def pyReplace (s pat repl : List Char) : List Char :=
  pyReplaceF (s.length + 1) s pat repl

/-- Python str.replace on Strings. -/
def pyReplaceS (s pat repl : String) : String := ⟨pyReplace s.data pat.data repl.data⟩

/-- Python whitespace as stripped by str.strip() (ASCII portion). -/
def isPyWs (c : Char) : Bool :=
  c = ' ' ∨ c = '\t' ∨ c = '\n' ∨ c = '\r' ∨ c = '\x0b' ∨ c = '\x0c'

/-- Python line.strip() on character lists. -/
def pyStrip (l : List Char) : List Char :=
  ((l.dropWhile isPyWs).reverse.dropWhile isPyWs).reverse

/-- Python str.strip() on Strings. -/
def pyStripS (s : String) : String := ⟨pyStrip s.data⟩

/-- Python str.lower() (ASCII range, all the scripts compare against). -/
def pyLower (s : String) : String := ⟨s.data.map Char.toLower⟩

/-- Whether pat occurs as a contiguous run inside a character list. -/
def listContains (pat : List Char) : List Char → Bool
  | [] => pat.isPrefixOf []
  | c :: r => if pat.isPrefixOf (c :: r) then true else listContains pat r

/-- Python substring test (pat in s). -/
def containsSubstring (s pat : String) : Bool := listContains pat.data s.data

/-- The placeholder token for a key k (double braces around k). -/
def placeholder (k : String) : String := ⟨lcurl :: lcurl :: k.data ++ [rcurl, rcurl]⟩

/-- The wrapped pattern quote-placeholder-quote inside a one-element array
literal, as built by the special case in config_template._substitute. -/
def wrappedPeerPattern : String := ⟨'[' :: '"' :: (placeholder "source_peer_addresses").data ++ ['"', ']']⟩

/-- One iteration of the key loop in config_template._substitute (lines 52-66):
the special source_peer_addresses handling, else plain replacement. -/
def substStep (data : String) (key : String) (value : PyVal) : String :=
  if key = "source_peer_addresses" ∧ containsSubstring data (placeholder "source_peer_addresses") then
    match jsonLoads (pyStr value) with
    | some (.arr xs) => pyReplaceS data wrappedPeerPattern (jsonDumps (.arr xs))
    | some _ => pyReplaceS data (placeholder key) (pyStr value)
    | Option.none => pyReplaceS data (placeholder key) (pyStr value)
  else pyReplaceS data (placeholder key) (pyStr value)

/-- The full key loop of config_template._substitute over the merged mapping
(insertion order of the dict). -/
def substLoop (template : String) (allVars : List (String × PyVal)) : String :=
  allVars.foldl (fun d p => substStep d p.1 p.2) template

/-- config_template._substitute: run the key loop, then in body mode try to
pretty-print the result as JSON (2-space indent), returning the raw text on
parse failure; any other mode returns the substituted text unchanged. -/
def substitute (template : String) (allVars : List (String × PyVal)) (mode : String) : String :=
  let data := substLoop template allVars
  if mode = "body" then
    match jsonLoads data with
    | some v => jsonDumpsIndent2 v
    | Option.none => data
  else data

/-! Config loading: config_template._load_all_vars.  The YAML document is
embedded post-parse: none is a null document, and each top-level key maps
either to null (none) or to a flat mapping. -/

/-- A parsed config document: top-level null, or a mapping whose values are
null or flat string-to-scalar mappings. -/
abbrev ConfigDoc := Option (List (String × Option (List (String × PyVal))))

/-- config.get(key, default) followed by the falsy-to-empty coercion
(x or default): absent key and null value both give the empty mapping. -/
def sectionOf (config : List (String × Option (List (String × PyVal)))) (key : String) :
    List (String × PyVal) :=
  match dictGet config key with
  | some (some d) => d
  | some Option.none => []
  | Option.none => []

/-- config_template._load_all_vars on an already-parsed document:
(yaml.safe_load or empty), pull the variables and secrets sections with
empty-mapping defaults, then merge with secrets updating last. -/
def load_all_vars (doc : ConfigDoc) : List (String × PyVal) :=
  let config := doc.getD []
  load_all_vars_merge (sectionOf config "variables") (sectionOf config "secrets")

/-! setup_wizard.py: input loop, IPv4 validation, peer-address encoding. -/

/-- C isspace, as consulted by inet_aton for a trailing separator. -/
def isSpaceC (c : Char) : Bool :=
  c = ' ' ∨ c = '\t' ∨ c = '\n' ∨ c = '\x0b' ∨ c = '\x0c' ∨ c = '\r'

/-- Octal digit test. -/
def isOctDigit (c : Char) : Bool := '0' ≤ c ∧ c ≤ '7'

/-- Hex digit test (both cases). -/
def isHexDigitC (c : Char) : Bool :=
  ('0' ≤ c ∧ c ≤ '9') ∨ ('a' ≤ c ∧ c ≤ 'f') ∨ ('A' ≤ c ∧ c ≤ 'F')

/-- Value of a decimal digit run. -/
def decVal (ds : List Char) : Nat := ds.foldl (fun a d => a * 10 + (d.toNat - 48)) 0

/-- Value of an octal digit run. -/
def octVal (ds : List Char) : Nat := ds.foldl (fun a d => a * 8 + (d.toNat - 48)) 0

/-- Value of a hex digit run. -/
def hexRunVal (ds : List Char) : Nat :=
  ds.foldl (fun a d => a * 16 + ((hexVal d).getD 0)) 0

/-- strtoul with base 0 at a string whose first character is a decimal digit
(the only situation inet_aton calls it in): leading 0x selects hex when a hex
digit follows, a leading 0 selects octal, otherwise decimal; the number ends
at the first character invalid in the selected base. -/
def strtoulBase0 (cs : List Char) : Nat × List Char :=
  match cs with
  | [] => (0, [])
  | c :: rest =>
    if c = '0' then
      match rest with
      | [] => (0, [])
      | c2 :: rest2 =>
          if (c2 = 'x' ∨ c2 = 'X') ∧ ((match rest2.head? with
              | some h2 => isHexDigitC h2
              | Option.none => false) = true) then
            (hexRunVal (rest2.takeWhile isHexDigitC), rest2.dropWhile isHexDigitC)
          else
            (octVal (rest.takeWhile isOctDigit), rest.dropWhile isOctDigit)
    else (decVal (cs.takeWhile Char.isDigit), cs.dropWhile Char.isDigit)

/-- Limit on the last number by how many dot-separated parts preceded it
(the max table of glibc inet_aton). -/
def atonMax : Nat → Nat
  | 0 => 0xffffffff
  | 1 => 0xffffff
  | 2 => 0xffff
  | _ => 0xff

/-- The parsing loop of glibc inet_aton (resolv/inet_addr.c, inet_aton_end),
which CPython socket.inet_aton wraps: each part must start with a decimal
digit; a part followed by a dot must fit a byte and at most four parts are
accepted; the last part must fit the remaining bytes; the string must end
there, or continue with an ASCII space character (trailing text after a
space is ignored).  The fuel only bounds the part count, which the parts
counter already caps at four. -/
def atonLoop : Nat → Nat → List Char → Bool
  | 0, _, _ => false
  | f + 1, parts, cs =>
    match cs.head? with
    | Option.none => false
    | some c =>
      if ¬ c.isDigit then false
      else
        let p := strtoulBase0 cs
        if p.1 > 0xffffffff then false
        else
          match p.2 with
          | '.' :: rest2 =>
              if parts > 2 then false
              else if p.1 > 0xff then false
              else atonLoop f (parts + 1) rest2
          | [] => decide (p.1 ≤ atonMax parts)
          | c2 :: _ => isSpaceC c2 && decide (p.1 ≤ atonMax parts)

/-- socket.inet_aton viewed as an acceptance test. -/
def inet_aton (s : String) : Bool := atonLoop 4 0 s.data

/-- setup_wizard.ConfigWizard.validate_ip_address: raise ValueError exactly
when socket.inet_aton rejects the string. -/
def validate_ip_address (value : String) : Except String Unit :=
  if inet_aton value then .ok ()
  else .error "Must be a valid IP address (e.g., 192.168.1.100)"

/-- setup_wizard.ConfigWizard.get_input, driven by a list of pending user
inputs: returns the accepted value and how many prompts were issued, or none
if the loop is still waiting when the inputs run out.  Non-secret input is
stripped; an empty entry keeps a non-empty current value or, for an optional
field, returns empty; a case-insensitive skip returns the current value or
empty; otherwise the validator (when given) may reject and re-prompt, an
empty required entry re-prompts, and anything else is returned. -/
def get_input (current_value : String) (required secret : Bool)
    (validate : Option (String → Except String Unit)) :
    List String → Option (String × Nat)
  | [] => Option.none
  | raw :: rest =>
    let value := if secret then raw else pyStripS raw
    if value = "" ∧ current_value ≠ "" then some (current_value, 1)
    else if value = "" ∧ required = false then some ("", 1)
    else if pyLower value = "skip" then
      some (if current_value ≠ "" then current_value else "", 1)
    else
      match validate with
      | some f =>
        match f value with
        | .error _ =>
            (get_input current_value required secret (some f) rest).map
              (fun p => (p.1, p.2 + 1))
        | .ok _ =>
            if required ∧ value = "" then
              (get_input current_value required secret (some f) rest).map
                (fun p => (p.1, p.2 + 1))
            else some (value, 1)
      | Option.none =>
          if required ∧ value = "" then
            (get_input current_value required secret Option.none rest).map
              (fun p => (p.1, p.2 + 1))
          else some (value, 1)

/-- The return encoding at the end of collect_peer_addresses (lines 276-285):
a single collected address is returned bare, two or more as the json.dumps
of the list.  (The code reaches this point only with a non-empty list.) -/
def encode_peer_addresses (ips : List String) : String :=
  match ips with
  | [ip] => ip
  | _ => jsonDumps (.arr (ips.map JVal.str))

/-! standardize_variables.py: dry-run gating.  The regex rewriting block
(lines 61-88, Python re over the fixed mapping table) is abstracted as an
explicit rewrite argument returning the new content and the list of change
descriptions; the surrounding control flow is embedded exactly. -/

/-- Outcome of update_file_variables for one file: content on disk afterwards
and whether a write happened. -/
structure UpdateOutcome where
  disk : String
  written : Bool
deriving DecidableEq, Repr

/-- standardize_variables.update_file_variables (lines 47-105) for one file:
compute the rewrite and collected change descriptions; write back exactly
when changes were found and dry_run is off. -/
def update_file_variables (rewrite : String → String × List String)
    (dry_run : Bool) (content : String) : UpdateOutcome :=
  let p := rewrite content
  if p.2 ≠ [] ∧ ¬ dry_run then ⟨p.1, true⟩ else ⟨content, false⟩

/-- standardize_variables.main lines 130-131: the interactive dry-run choice;
dry-run only on a stripped, lowercased answer of y or yes. -/
def parse_dry_run_response (response : String) : Bool :=
  pyLower (pyStripS response) = "y" ∨ pyLower (pyStripS response) = "yes"

/-! yaml-autofix.py: the fix pipeline of auto_fix_yaml_file.  File contents
are character lists; the encoding-probing read and the filesystem are outside
the embedding (the outcome records the resulting on-disk content), and the
yaml.safe_load validity test is a parameter. -/

/-- The byte-order-mark character (written by code point: it is invisible). -/
def bomChar : Char := Char.ofNat 0xfeff

/-- Python str.split(sep) for a one-character separator: always returns at
least one (possibly empty) piece. -/
def splitOnC (sep : Char) : List Char → List (List Char)
  | [] => [[]]
  | c :: r =>
      match splitOnC sep r with
      | [] => if c = sep then [[], [c]] else [[c]]
      | p :: ps => if c = sep then [] :: p :: ps else (c :: p) :: ps

/-- Python sep.join for a one-character separator. -/
def interC (sep : Char) : List (List Char) → List Char
  | [] => []
  | [x] => x
  | x :: xs => x ++ sep :: interC sep xs

/-- Whether the two-character CRLF sequence occurs in the content. -/
def hasCRLF : List Char → Bool
  | [] => false
  | ['\r'] => false
  | '\r' :: '\n' :: _ => true
  | _ :: r => hasCRLF r

/-- Python replace of CRLF by LF: non-overlapping, left to right. -/
def replaceCRLF : List Char → List Char
  | [] => []
  | ['\r'] => ['\r']
  | '\r' :: '\n' :: r => '\n' :: replaceCRLF r
  | c :: r => c :: replaceCRLF r

/-- Fix 3 body for one line: a line starting with a tab has every leading tab
replaced by two spaces; other lines are untouched (even embedded tabs). -/
def fixTabsLine (line : List Char) : List Char :=
  match line with
  | '\t' :: _ =>
      spaces (2 * (line.takeWhile (fun c => c = '\t')).length) ++
        line.dropWhile (fun c => c = '\t')
  | _ => line

/-- Fix 4 body for one line (lines 76-97): when the line holds a colon and is
not a comment, split on colons; if the part after the first colon is
non-empty and does not start with a space (or newline), rejoin with a single
space inserted after the first colon.  Returns the new line and whether it
changed. -/
def fixColonLine (line : List Char) : List Char × Bool :=
  if listContains [':'] line ∧ ¬ (pyStrip line).head? = some '#' then
    match splitOnC ':' line with
    | [] => (line, false)
    | keyPart :: restParts =>
        if restParts ≠ [] then
          let valuePart := interC ':' restParts
          if valuePart ≠ [] ∧ ¬ valuePart.head? = some ' ' ∧ ¬ valuePart.head? = some '\n' then
            (keyPart ++ ':' :: ' ' :: valuePart, true)
          else (line, false)
        else (line, false)
  else (line, false)

/-- Fix 4 as a whole (lines 73-99): map the per-line colon fix over the
lines and rejoin; the flag records whether any line changed (the single
recorded message). -/
def fix4 (c3 : List Char) : List Char × Bool :=
  let results := (splitOnC '\n' c3).map fixColonLine
  (interC '\n' (results.map Prod.fst), results.any Prod.snd)

/-- The four-fix text pipeline of auto_fix_yaml_file (lines 43-99): strip one
leading byte-order mark, normalize CRLF, expand leading tabs (only when a tab
occurs anywhere), insert the missing space after colons; returns the new
content together with the fix descriptions that were recorded. -/
def applyFixes (c0 : List Char) : List Char × List String :=
  let s1 : List Char × List String :=
    match c0 with
    | c :: r =>
        if c = bomChar then (r, ["Removed BOM (Byte Order Mark)"])
        else (c :: r, [])
    | [] => ([], [])
  let s2 : List Char × List String :=
    if hasCRLF s1.1 then (replaceCRLF s1.1, s1.2 ++ ["Converted CRLF to LF line endings"])
    else s1
  let s3 : List Char × List String :=
    if s2.1.contains '\t' then
      (interC '\n' ((splitOnC '\n' s2.1).map fixTabsLine),
        s2.2 ++ ["Replaced tabs with spaces"])
    else s2
  let r4 := fix4 s3.1
  (r4.1, if r4.2 then s3.2 ++ ["Fixed colon spacing"] else s3.2)

/-- Outcome of auto_fix_yaml_file: the reported result, the file content on
disk afterwards, and whether a backup copy was made. -/
structure FixOutcome where
  success : Bool
  disk : List Char
  backupMade : Bool
deriving DecidableEq, Repr

/-- auto_fix_yaml_file on a decoded file content, parameterized by the
yaml.safe_load validity oracle: apply the fixes; if the result does not
parse, report failure and leave the file untouched with no backup (lines
101-107); otherwise back up the original and write the fixed content
(lines 109-128). -/
def auto_fix_yaml_file (yamlValid : List Char → Bool) (content : List Char) : FixOutcome :=
  let p := applyFixes content
  if yamlValid p.1 then ⟨true, p.1, true⟩ else ⟨false, content, false⟩

/-- The spec-side shape of a dotted-quad IPv4 literal: exactly four
dot-separated, non-empty, all-decimal parts, each of value at most 255.
Used only to compare the specified acceptance set with the code's. -/
def isDottedQuadSpec (s : String) : Bool :=
  let parts := splitOnC '.' s.data
  parts.length = 4 ∧ parts.all (fun p => p ≠ [] ∧ p.all Char.isDigit ∧ decVal p ≤ 255)

/-- A decimal-written octet: non-empty, all decimal digits, no leading zero
except the single digit 0, value at most 255. -/
def okOctet (l : List Char) : Prop :=
  l ≠ [] ∧ (∀ c ∈ l, c.isDigit = true) ∧ (l.head? = some '0' → l = ['0']) ∧ decVal l ≤ 255

instance : DecidablePred okOctet := fun l => by
  unfold okOctet
  infer_instance

/-- A character that json.dumps emits verbatim inside a string literal and
the decoder takes verbatim: printable ASCII other than quote and backslash. -/
def jSafeChar (c : Char) : Bool :=
  0x20 ≤ c.toNat ∧ c.toNat ≤ 0x7e ∧ c.toNat ≠ 34 ∧ c.toNat ≠ 92

/-- The characters inet_aton-accepted address strings are made of: decimal
digits, dots, hex digits and the radix markers. -/
def isAddrChar (c : Char) : Bool :=
  (48 ≤ c.toNat ∧ c.toNat ≤ 57) ∨ c = '.' ∨ (97 ≤ c.toNat ∧ c.toNat ≤ 102) ∨
    (65 ≤ c.toNat ∧ c.toNat ≤ 70) ∨ c = 'x' ∨ c = 'X'

/-! Theorems: first generic facts about the embedded helpers, then the
claim theorems with their witnesses and counterexamples. -/

theorem dictGet_updOne_self {α : Type} (d : List (String × α)) (k : String) (v : α) :
    dictGet (updOne d k v) k = some v := by
  induction d with
  | nil => simp [updOne, dictGet]
  | cons p rest ih =>
      obtain ⟨k1, v1⟩ := p
      by_cases h : k1 = k
      · simp [updOne, h, dictGet]
      · simp [updOne, h, dictGet, Ne.symm h, ih]

theorem dictGet_updOne_ne {α : Type} (d : List (String × α)) (k k2 : String) (v : α)
    (h : k2 ≠ k) : dictGet (updOne d k v) k2 = dictGet d k2 := by
  induction d with
  | nil => simp [updOne, dictGet, h]
  | cons p rest ih =>
      obtain ⟨k1, v1⟩ := p
      by_cases h1 : k1 = k
      · subst h1
        simp [updOne, dictGet, h]
      · simp only [updOne, if_neg h1, dictGet]
        by_cases h2 : k2 = k1 <;> simp [h2, ih]

theorem dictGet_eq_none_of_not_mem {α : Type} (d : List (String × α)) (k : String)
    (h : k ∉ d.map Prod.fst) : dictGet d k = Option.none := by
  induction d with
  | nil => simp [dictGet]
  | cons p rest ih =>
      obtain ⟨k1, v1⟩ := p
      simp only [List.map_cons, List.mem_cons, not_or] at h
      simp [dictGet, h.1, ih h.2]

/-- Lookup in a Python dict-update: the updating dict wins, the base is the
fallback (requires the updating dict to have unique keys, as real dicts do). -/
theorem dictGet_dictUpdate {α : Type} (upd : List (String × α))
    (hnd : (upd.map Prod.fst).Nodup) :
    ∀ (base : List (String × α)) (k : String),
      dictGet (dictUpdate base upd) k = (dictGet upd k).orElse (fun _ => dictGet base k) := by
  induction upd with
  | nil => intro base k; simp [dictUpdate, dictGet, Option.orElse]
  | cons p rest ih =>
      intro base k
      obtain ⟨k1, v1⟩ := p
      rw [List.map_cons, List.nodup_cons] at hnd
      have hrec := ih hnd.2 (updOne base k1 v1) k
      show dictGet (dictUpdate (updOne base k1 v1) rest) k = _
      rw [hrec]
      by_cases hk : k = k1
      · subst hk
        have hnone : dictGet rest k = Option.none :=
          dictGet_eq_none_of_not_mem rest k hnd.1
        simp [dictGet, hnone, dictGet_updOne_self, Option.orElse]
      · simp [dictGet, hk, dictGet_updOne_ne base k1 k v1 hk]

theorem dictGet_dictUpdate_nil {α : Type} (l : List (String × α))
    (hnd : (l.map Prod.fst).Nodup) (k : String) :
    dictGet (dictUpdate ([] : List (String × α)) l) k = dictGet l k := by
  rw [dictGet_dictUpdate l hnd [] k]
  cases h : dictGet l k <;> simp [Option.orElse, dictGet]

/-- C2: the merged namespace used by config_template._load_all_vars and by
validate_variables.load_config_variables is the union of variables and
secrets, with the secrets value winning for a key present in both: looking up
any key gives the secrets binding when there is one and the variables binding
otherwise. -/
theorem C2_secrets_override_variables (varsMap secretsMap : List (String × PyVal))
    (hv : (varsMap.map Prod.fst).Nodup) (hs : (secretsMap.map Prod.fst).Nodup)
    (k : String) :
    dictGet (load_all_vars_merge varsMap secretsMap) k
        = (dictGet secretsMap k).orElse (fun _ => dictGet varsMap k)
    ∧ dictGet (load_config_variables_merge varsMap secretsMap) k
        = (dictGet secretsMap k).orElse (fun _ => dictGet varsMap k) := by
  have hbase := dictGet_dictUpdate_nil varsMap hv k
  constructor
  · rw [load_all_vars_merge, dictGet_dictUpdate secretsMap hs _ k]
    simp only [hbase]
  · rw [load_config_variables_merge, dictGet_dictUpdate secretsMap hs _ k]
    simp only [hbase]

theorem C2_secrets_override_variables_witness :
    dictGet (load_all_vars_merge [("a", PyVal.str "1"), ("b", PyVal.str "2")]
        [("b", PyVal.str "9")]) "b" = some (PyVal.str "9")
    ∧ dictGet (load_config_variables_merge [("a", PyVal.str "1"), ("b", PyVal.str "2")]
        [("b", PyVal.str "9")]) "b" = some (PyVal.str "9") := by
  have h := C2_secrets_override_variables
    [("a", PyVal.str "1"), ("b", PyVal.str "2")] [("b", PyVal.str "9")]
    (by decide) (by decide) "b"
  exact ⟨h.1.trans (by decide), h.2.trans (by decide)⟩

/-- C10: loading the merged namespace never fails on missing sections — a
null document gives the empty namespace, and absent or null variables and
secrets keys are treated as empty mappings (empty merge when both are
missing); with the empty namespace, the substitution loop leaves the template
untouched, so url mode returns it unchanged, as does body mode whenever the
template is not parseable JSON (placeholders are left intact). -/
theorem C10_missing_sections_are_empty :
    load_all_vars Option.none = []
    ∧ (∀ config : List (String × Option (List (String × PyVal))),
        (dictGet config "variables" = Option.none ∨ dictGet config "variables" = some Option.none) →
        (dictGet config "secrets" = Option.none ∨ dictGet config "secrets" = some Option.none) →
        load_all_vars (some config) = [])
    ∧ (∀ template : String, substLoop template [] = template)
    ∧ (∀ template : String, substitute template [] "url" = template)
    ∧ (∀ template : String, jsonLoads template = Option.none →
        substitute template [] "body" = template) := by
  refine ⟨rfl, ?_, fun _ => rfl, fun _ => rfl, ?_⟩
  · intro config hv hs
    have h1 : sectionOf config "variables" = [] := by
      rcases hv with h | h <;> simp [sectionOf, h]
    have h2 : sectionOf config "secrets" = [] := by
      rcases hs with h | h <;> simp [sectionOf, h]
    simp [load_all_vars, h1, h2]
    rfl
  · intro template h
    simp [substitute, substLoop, h]

theorem C10_missing_sections_are_empty_witness :
    load_all_vars (some [("variables", Option.none), ("extra", some [("x", PyVal.str "1")])]) = []
    ∧ substitute ":" [] "body" = ":" := by
  refine ⟨C10_missing_sections_are_empty.2.1 _ ?_ ?_, C10_missing_sections_are_empty.2.2.2.2 ":" (by rfl)⟩
  · right; decide
  · left; decide

/-- C5: in body mode, substitution parses its result as JSON and returns the
two-space-indented re-serialization on success and the raw substituted text
on failure (the embedding is total, so no exception escapes); in url mode it
returns the substituted text with no JSON handling. -/
theorem C5_body_mode_pretty_print (template : String) (allVars : List (String × PyVal)) :
    (∀ v, jsonLoads (substLoop template allVars) = some v →
        substitute template allVars "body" = jsonDumpsIndent2 v)
    ∧ (jsonLoads (substLoop template allVars) = Option.none →
        substitute template allVars "body" = substLoop template allVars)
    ∧ substitute template allVars "url" = substLoop template allVars := by
  refine ⟨?_, ?_, rfl⟩
  · intro v h
    simp [substitute, h]
  · intro h
    simp [substitute, h]

theorem C5_body_mode_pretty_print_witness :
    substitute "[1]" [] "body" = jsonDumpsIndent2 (JVal.arr [JVal.int 1])
    ∧ substitute "[1" [] "body" = "[1" := by
  exact ⟨(C5_body_mode_pretty_print "[1]" []).1 (JVal.arr [JVal.int 1]) rfl,
    ((C5_body_mode_pretty_print "[1" []).2.1 rfl).trans rfl⟩

/-- C1 counterexample: for the template bracket-quote-placeholder-quote-bracket
and the stored value list of 10.0.0.1 and 10.0.0.2, the output is not the
character-exact text claimed (json.dumps inserts a space after the comma, and
body mode pretty-prints over several lines). -/
theorem C1_exact_output_counterexample :
    substitute "[\"\x7b\x7bsource_peer_addresses\x7d\x7d\"]"
        [("source_peer_addresses", PyVal.str "[\"10.0.0.1\",\"10.0.0.2\"]")] "url"
      ≠ "[\"10.0.0.1\",\"10.0.0.2\"]"
    ∧ substitute "[\"\x7b\x7bsource_peer_addresses\x7d\x7d\"]"
        [("source_peer_addresses", PyVal.str "[\"10.0.0.1\",\"10.0.0.2\"]")] "body"
      ≠ "[\"10.0.0.1\",\"10.0.0.2\"]" := by
  constructor <;> decide

/-- C1 (amended): when the stored source_peer_addresses value decodes as a
JSON array and the placeholder occurs in the text, the wrapped pattern
bracket-quote-placeholder-quote-bracket is replaced by the json.dumps text of
the array; when the value does not decode to an array, the plain placeholder
is replaced by the string form of the value; for the one-element-array
template and the two-address value, url mode yields the bare array text with
json.dumps separators (comma and space), not the space-free text of the
claim. -/
theorem C1_peer_array_substitution :
    (∀ (data : String) (value : PyVal) (xs : List JVal),
        jsonLoads (pyStr value) = some (.arr xs) →
        containsSubstring data (placeholder "source_peer_addresses") = true →
        substStep data "source_peer_addresses" value
          = pyReplaceS data wrappedPeerPattern (jsonDumps (.arr xs)))
    ∧ (∀ (data : String) (value : PyVal),
        (∀ xs, jsonLoads (pyStr value) ≠ some (.arr xs)) →
        substStep data "source_peer_addresses" value
          = pyReplaceS data (placeholder "source_peer_addresses") (pyStr value))
    ∧ substitute "[\"\x7b\x7bsource_peer_addresses\x7d\x7d\"]"
        [("source_peer_addresses", PyVal.str "[\"10.0.0.1\",\"10.0.0.2\"]")] "url"
      = "[\"10.0.0.1\", \"10.0.0.2\"]" := by
  refine ⟨?_, ?_, by decide⟩
  · intro data value xs hload hcont
    simp [substStep, hcont, hload]
  · intro data value hno
    by_cases hcont : containsSubstring data (placeholder "source_peer_addresses") = true
    · cases hload : jsonLoads (pyStr value) with
      | none => simp [substStep, hcont, hload]
      | some v =>
          cases v with
          | arr xs => exact absurd hload (hno xs)
          | null => simp [substStep, hcont, hload]
          | bool b => simp [substStep, hcont, hload]
          | int n => simp [substStep, hcont, hload]
          | str s => simp [substStep, hcont, hload]
          | obj kvs => simp [substStep, hcont, hload]
    · simp [substStep, hcont]

theorem C1_peer_array_substitution_witness :
    jsonLoads (pyStr (PyVal.str "[\"10.0.0.1\",\"10.0.0.2\"]"))
      = some (JVal.arr [JVal.str "10.0.0.1", JVal.str "10.0.0.2"])
    ∧ substStep "[\"\x7b\x7bsource_peer_addresses\x7d\x7d\"]" "source_peer_addresses"
        (PyVal.str "[\"10.0.0.1\",\"10.0.0.2\"]")
      = pyReplaceS "[\"\x7b\x7bsource_peer_addresses\x7d\x7d\"]" wrappedPeerPattern
          (jsonDumps (JVal.arr [JVal.str "10.0.0.1", JVal.str "10.0.0.2"])) := by
  refine ⟨rfl, C1_peer_array_substitution.1 _ _ _ rfl (by decide)⟩

/-- C3 counterexample: at the interactive prompt an empty answer (the user
giving no explicit choice) selects update mode, not dry-run, and a file with
changes is then written — the renamer does not run in dry-run mode by
default.  (The rewrite argument stands for the regex pass, which does rewrite
the old key tenant on this content.) -/
theorem C3_default_not_dry_run_counterexample :
    parse_dry_run_response "" = false
    ∧ (update_file_variables
        (fun c => (pyReplaceS c "tenant" "azure_tenant_id", ["YAML key"]))
        (parse_dry_run_response "") "tenant: x").written = true
    ∧ (update_file_variables
        (fun c => (pyReplaceS c "tenant" "azure_tenant_id", ["YAML key"]))
        (parse_dry_run_response "") "tenant: x").disk = "azure_tenant_id: x" := by
  refine ⟨by decide, by decide, by decide⟩

/-- C3 (amended): update_file_variables defaults to dry-run only at the
function level — with dry_run true nothing is ever written and the disk
content is unchanged; a write happens exactly when changes were found and
dry_run is off; and at the interactive prompt dry-run is selected only by an
explicit y or yes answer (stripped, case-insensitive), so an empty answer
selects update mode. -/
theorem C3_dry_run_gating :
    (∀ (rewrite : String → String × List String) (content : String),
        update_file_variables rewrite true content = ⟨content, false⟩)
    ∧ (∀ (rewrite : String → String × List String) (dry : Bool) (content : String),
        (update_file_variables rewrite dry content).written = true ↔
          ((rewrite content).2 ≠ [] ∧ dry = false))
    ∧ parse_dry_run_response "" = false
    ∧ parse_dry_run_response " Y " = true := by
  refine ⟨?_, ?_, by decide, by decide⟩
  · intro rewrite content
    simp [update_file_variables]
  · intro rewrite dry content
    rcases dry with _ | _ <;> by_cases h : (rewrite content).2 = [] <;>
      simp [update_file_variables, h]

theorem C3_dry_run_gating_witness :
    update_file_variables (fun c => (c ++ "!", ["chg"])) true "k: v" =
      UpdateOutcome.mk "k: v" false := by
  exact C3_dry_run_gating.1 (fun c => (c ++ "!", ["chg"])) "k: v"

/-- C4: when the fixed text still fails to parse, auto_fix_yaml_file reports
failure and the file keeps its original content: no write and no backup
happen for it. -/
theorem C4_no_overwrite_on_parse_failure (yamlValid : List Char → Bool)
    (content : List Char) (h : yamlValid (applyFixes content).1 = false) :
    auto_fix_yaml_file yamlValid content = ⟨false, content, false⟩ := by
  simp [auto_fix_yaml_file, h]

theorem C4_no_overwrite_on_parse_failure_witness :
    auto_fix_yaml_file (fun _ => false) ("a: [b".data) =
      FixOutcome.mk false ("a: [b".data) false := by
  exact C4_no_overwrite_on_parse_failure (fun _ => false) ("a: [b".data) rfl

/-- C8: get_input with required true, empty current value and a validator
re-prompts on every rejected input and returns the first accepted one: after
any run of rejected inputs (none of which is the literal skip escape), a
non-empty accepted input is returned and the number of prompts is the number
of rejected inputs plus one. -/
theorem C8_get_input_retries (f : String → Except String Unit)
    (pre : List String) (last : String) (rest : List String)
    (hpre : ∀ x ∈ pre, pyLower (pyStripS x) ≠ "skip" ∧ (f (pyStripS x)).isOk = false)
    (hne : pyStripS last ≠ "") (hskip : pyLower (pyStripS last) ≠ "skip")
    (hok : (f (pyStripS last)).isOk = true) :
    get_input "" true false (some f) (pre ++ last :: rest)
      = some (pyStripS last, pre.length + 1) := by
  induction pre with
  | nil =>
      cases hfv : f (pyStripS last) with
      | error e => rw [hfv] at hok; simp [Except.isOk, Except.toBool] at hok
      | ok u => simp [get_input, hne, hskip, hfv]
  | cons x pre ih =>
      have hx := hpre x (by simp)
      have hihres := ih (fun y hy => hpre y (by simp [hy]))
      cases hfv : f (pyStripS x) with
      | ok u => rw [hfv] at hx; simp [Except.isOk, Except.toBool] at hx
      | error e =>
          simp [List.cons_append, get_input, hx.1, hfv, hihres]

theorem takeWhile_append_all (q : Char → Bool) (p rest : List Char)
    (hall : ∀ c ∈ p, q c = true)
    (hrest : ∀ c, rest.head? = some c → q c = false) :
    (p ++ rest).takeWhile q = p ∧ (p ++ rest).dropWhile q = rest := by
  induction p with
  | nil =>
      cases rest with
      | nil => simp
      | cons c r => simp [List.takeWhile_cons, List.dropWhile_cons, hrest c rfl]
  | cons d p ih =>
      have hd : q d = true := hall d (by simp)
      have hih := ih (fun c hc => hall c (by simp [hc]))
      simp [List.takeWhile_cons, List.dropWhile_cons, hd, hih.1, hih.2]

theorem strtoul_octet {p : List Char} (rest : List Char) (hp : okOctet p)
    (hrest : rest = [] ∨ ∃ r2, rest = '.' :: r2) :
    strtoulBase0 (p ++ rest) = (decVal p, rest) := by
  obtain ⟨hne, hdig, hzero, _⟩ := hp
  cases p with
  | nil => exact absurd rfl hne
  | cons d ds =>
      by_cases hd0 : d = '0'
      · subst hd0
        have hds : ds = [] := by
          have := hzero (by rfl)
          simpa using this
        subst hds
        rcases hrest with h | ⟨r2, h⟩ <;> subst h
        · rfl
        · show strtoulBase0 ('0' :: '.' :: r2) = (decVal ['0'], '.' :: r2)
          have hz : decVal ['0'] = 0 := by decide
          rw [hz]
          simp [strtoulBase0, isOctDigit, octVal, List.takeWhile_cons, List.dropWhile_cons]
      · have hsplit := takeWhile_append_all Char.isDigit (d :: ds) rest
          hdig (by
            intro c hc
            rcases hrest with h | ⟨r2, h⟩ <;> subst h
            · simp at hc
            · simp at hc
              subst hc
              decide)
        simp only [List.cons_append] at hsplit ⊢
        simp [strtoulBase0, hd0, hsplit.1, hsplit.2]

theorem aton_step (f parts : Nat) (p rest : List Char) (hp : okOctet p)
    (hparts : parts ≤ 2) :
    atonLoop (f + 1) parts (p ++ '.' :: rest) = atonLoop f (parts + 1) rest := by
  cases p with
  | nil => exact absurd rfl hp.1
  | cons d ds =>
      have hstr := strtoul_octet ('.' :: rest) hp (Or.inr ⟨rest, rfl⟩)
      have hle := hp.2.2.2
      have hd : d.isDigit = true := hp.2.1 d (by simp)
      have h1 : ¬ (decVal (d :: ds) > 0xffffffff) := by omega
      have h2 : ¬ (parts > 2) := by omega
      have h3 : ¬ (decVal (d :: ds) > 0xff) := by omega
      simp only [List.cons_append] at hstr ⊢
      simp [atonLoop, hd, hstr, h1, h2, h3]

theorem aton_last (f parts : Nat) (p : List Char) (hp : okOctet p)
    (hmax : decVal p ≤ atonMax parts) :
    atonLoop (f + 1) parts p = true := by
  cases p with
  | nil => exact absurd rfl hp.1
  | cons d ds =>
      have hstr := strtoul_octet [] hp (Or.inl rfl)
      rw [List.append_nil] at hstr
      have hd : d.isDigit = true := hp.2.1 d (by simp)
      have h1 : ¬ (decVal (d :: ds) > 0xffffffff) := by
        have := hp.2.2.2
        omega
      simp [atonLoop, hd, hstr, h1, hmax]

/-- C9 counterexample: socket.inet_aton (hence validate_ip_address) also
accepts shorthand numbers-and-dots forms, so acceptance is not equivalent to
the four-octet dotted-quad shape: the two-part string 127.1 is accepted but
is no dotted quad. -/
theorem C9_not_only_quads_counterexample :
    validate_ip_address "127.1" = Except.ok () ∧ isDottedQuadSpec "127.1" = false :=
  ⟨rfl, by decide⟩

/-- C9 (amended): the validator accepts every dotted-quad IPv4 literal (four
dot-separated decimal octets, each at most 255, no spurious leading zero),
but acceptance is strictly wider than the dotted-quad shape: inet_aton
shorthand such as 127.1 is accepted too, so the only-if direction of the
claim fails. -/
theorem C9_ipv4_validator :
    (∀ p1 p2 p3 p4 : List Char, okOctet p1 → okOctet p2 → okOctet p3 → okOctet p4 →
        inet_aton ⟨p1 ++ '.' :: (p2 ++ '.' :: (p3 ++ '.' :: p4))⟩ = true)
    ∧ validate_ip_address "127.1" = Except.ok () := by
  constructor
  · intro p1 p2 p3 p4 h1 h2 h3 h4
    show atonLoop 4 0 (p1 ++ '.' :: (p2 ++ '.' :: (p3 ++ '.' :: p4))) = true
    rw [show (4 : Nat) = 3 + 1 from rfl, aton_step 3 0 p1 _ h1 (by omega)]
    rw [show (3 : Nat) = 2 + 1 from rfl, aton_step 2 1 p2 _ h2 (by omega)]
    rw [show (2 : Nat) = 1 + 1 from rfl, aton_step 1 2 p3 _ h3 (by omega)]
    exact aton_last 0 3 p4 h4 h4.2.2.2
  · rfl

theorem C9_ipv4_validator_witness :
    inet_aton "10.200.0.255" = true := by
  exact C9_ipv4_validator.1 ['1', '0'] ['2', '0', '0'] ['0'] ['2', '5', '5']
    (by decide) (by decide) (by decide) (by decide)

theorem C8_get_input_retries_witness :
    get_input "" true false (some validate_ip_address)
      ["foo", "bar", "1.2.3.999", "10.0.0.1"] = some ("10.0.0.1", 4) := by
  exact C8_get_input_retries validate_ip_address ["foo", "bar", "1.2.3.999"]
    "10.0.0.1" [] (by decide) (by decide) (by decide) (by decide)

theorem jEscapeChar_safe {c : Char} (h : jSafeChar c = true) : jEscapeChar c = [c] := by
  simp only [jSafeChar, Bool.and_eq_true, decide_eq_true_eq] at h
  obtain ⟨h1, h2, h3, h4⟩ := h
  have e1 : ¬ (c = '"') := by rintro rfl; exact absurd h3 (by decide)
  have e2 : ¬ (c = '\\') := by rintro rfl; exact absurd h4 (by decide)
  have e3 : ¬ (c = '\n') := by rintro rfl; exact absurd h1 (by decide)
  have e4 : ¬ (c = '\r') := by rintro rfl; exact absurd h1 (by decide)
  have e5 : ¬ (c = '\t') := by rintro rfl; exact absurd h1 (by decide)
  have e6 : ¬ (c = '\x08') := by rintro rfl; exact absurd h1 (by decide)
  have e7 : ¬ (c = '\x0c') := by rintro rfl; exact absurd h1 (by decide)
  have e8 : ¬ (c.toNat < 0x20) := by omega
  simp [jEscapeChar, e1, e2, e3, e4, e5, e6, e7, e8, h2]

theorem flatMap_escape_safe (s : List Char) (h : ∀ c ∈ s, jSafeChar c = true) :
    s.flatMap jEscapeChar = s := by
  induction s with
  | nil => rfl
  | cons c s2 ih =>
      simp [jEscapeChar_safe (h c (by simp)), ih (fun d hd => h d (by simp [hd]))]

theorem parseStringBodyF_safe (s : List Char) :
    ∀ (f : Nat) (rest : List Char), (∀ c ∈ s, jSafeChar c = true) → s.length < f →
      parseStringBodyF f (s ++ '"' :: rest) = some (s, rest) := by
  induction s with
  | nil =>
      intro f rest _ hf
      match f, hf with
      | f + 1, _ => simp [parseStringBodyF]
  | cons c s2 ih =>
      intro f rest hsafe hf
      match f, hf with
      | f + 1, hf =>
        have hc := hsafe c (by simp)
        simp only [jSafeChar, Bool.and_eq_true, decide_eq_true_eq] at hc
        have h1 : ¬ (c = '"') := by rintro rfl; exact absurd hc (by decide)
        have h2 : ¬ (c = '\\') := by rintro rfl; exact absurd hc (by decide)
        have h3 : ¬ (c.toNat < 0x20) := by omega
        have hih := ih f rest (fun d hd => hsafe d (by simp [hd]))
          (by simp only [List.length_cons] at hf; omega)
        simp [parseStringBodyF, h1, h2, h3, hih]

theorem parseValue_str_safe (f : Nat) (s rest : List Char)
    (hsafe : ∀ c ∈ s, jSafeChar c = true) (hf : 1 ≤ f) :
    parseValue f ('"' :: (s ++ '"' :: rest)) = some (.str ⟨s⟩, rest) := by
  match f, hf with
  | f + 1, _ =>
    have hq1 : ¬ (('"' : Char) = lcurl) := by decide
    have hq2 : ¬ (('"' : Char) = '[') := by decide
    have hbody : parseStringBody (s ++ '"' :: rest) = some (s, rest) :=
      parseStringBodyF_safe s _ rest hsafe (by simp [List.length_append]; omega)
    simp [parseValue, hq1, hq2, hbody]

theorem string_mk_data (s : String) : String.mk s.data = s := rfl

theorem jdumpElems_strs_head (x : String) (l : List JVal) :
    ∃ t, jdumpElems (JVal.str x :: l) = '"' :: t := by
  cases l with
  | nil => exact ⟨x.data.flatMap jEscapeChar ++ ['"'], by simp [jdumpElems, jdump, jQuote]⟩
  | cons y l2 =>
      exact ⟨x.data.flatMap jEscapeChar ++ ['"'] ++ ',' :: ' ' :: jdumpElems (y :: l2), by
        simp [jdumpElems, jdump, jQuote]⟩

theorem jdumpElems_strs_length (ips : List String) :
    ips.length ≤ (jdumpElems (ips.map JVal.str)).length := by
  induction ips with
  | nil => simp [jdumpElems]
  | cons ip tl ih =>
      cases tl with
      | nil => simp [jdumpElems, jdump, jQuote]
      | cons ip2 tl2 =>
          simp only [List.map_cons, jdumpElems, jdump] at ih ⊢
          simp only [List.length_cons, List.length_append, jQuote, List.length_cons] at ih ⊢
          omega

theorem skipWs_cons_not_ws {c : Char} (l : List Char) (h : isJWs c = false) :
    skipWs (c :: l) = c :: l := by
  simp [skipWs, List.dropWhile_cons, h]

theorem parseElems_strs (ips : List String) :
    ∀ (f : Nat) (rest : List Char), ips ≠ [] →
      (∀ ip ∈ ips, ∀ c ∈ ip.data, jSafeChar c = true) → ips.length < f →
      parseElems f (jdumpElems (ips.map JVal.str) ++ ']' :: rest)
        = some (ips.map JVal.str, rest) := by
  induction ips with
  | nil => intro f rest hne; exact absurd rfl hne
  | cons ip tl ih =>
      intro f rest _ hsafe hf
      match f, hf with
      | f + 1, hf =>
        have hf1 : 1 ≤ f := by simp only [List.length_cons] at hf; omega
        have hip := hsafe ip (by simp)
        have hesc : ip.data.flatMap jEscapeChar = ip.data := flatMap_escape_safe _ hip
        have hwsp : isJWs ' ' = true := by decide
        have hqt : isJWs '"' = false := by decide
        have hrb : isJWs ']' = false := by decide
        have hcm : isJWs ',' = false := by decide
        cases tl with
        | nil =>
            have hval := parseValue_str_safe f ip.data (']' :: rest) hip hf1
            simp only [List.map_cons, List.map_nil, jdumpElems, jdump, jQuote, hesc,
              List.cons_append, List.append_assoc, List.nil_append]
            simp only [parseElems, hval]
            simp [skipWs, List.dropWhile_cons, hrb, string_mk_data]
        | cons ip2 tl2 =>
            obtain ⟨t, ht⟩ := jdumpElems_strs_head ip2 (tl2.map JVal.str)
            have hval := parseValue_str_safe f ip.data
              (',' :: ' ' :: (jdumpElems (JVal.str ip2 :: tl2.map JVal.str) ++ ']' :: rest))
              hip hf1
            have hih := ih f rest (by simp)
              (fun y hy => hsafe y (by simp [hy]))
              (by simp only [List.length_cons] at hf ⊢; omega)
            simp only [List.map_cons] at hih
            have hskip3 : List.dropWhile isJWs
                  (jdumpElems (JVal.str ip2 :: tl2.map JVal.str) ++ ']' :: rest)
                = jdumpElems (JVal.str ip2 :: tl2.map JVal.str) ++ ']' :: rest := by
              rw [ht]
              simp [List.cons_append, List.dropWhile_cons, hqt]
            simp only [List.map_cons, jdumpElems, jdump, jQuote, hesc, List.cons_append,
              List.append_assoc, List.nil_append]
            simp only [parseElems]
            rw [hval]
            simp [skipWs, List.dropWhile_cons, hwsp, hqt, hcm, hskip3, hih, string_mk_data]

theorem parseValue_arr_strs (f : Nat) (ips : List String) (hne : ips ≠ [])
    (hsafe : ∀ ip ∈ ips, ∀ c ∈ ip.data, jSafeChar c = true) (hf : ips.length < f) :
    parseValue (f + 1) ('[' :: (jdumpElems (ips.map JVal.str) ++ [']']))
      = some (.arr (ips.map JVal.str), []) := by
  obtain ⟨ip, tl, rfl⟩ : ∃ ip tl, ips = ip :: tl := by
    cases ips with
    | nil => exact absurd rfl hne
    | cons a b => exact ⟨a, b, rfl⟩
  obtain ⟨t, ht⟩ := jdumpElems_strs_head ip (tl.map JVal.str)
  have hqt : isJWs '"' = false := by decide
  have hq1 : ¬ (('[' : Char) = lcurl) := by decide
  have helems := parseElems_strs (ip :: tl) f [] (by simp) hsafe hf
  simp only [List.map_cons] at helems ht ⊢
  rw [ht] at helems
  simp only [List.cons_append] at helems
  simp only [parseValue, hq1, if_false, if_pos rfl]
  rw [ht]
  simp only [List.cons_append, skipWs, List.dropWhile_cons, hqt]
  simp [helems]

theorem jsonLoads_dumps_arr (ips : List String) (hne : ips ≠ [])
    (hsafe : ∀ ip ∈ ips, ∀ c ∈ ip.data, jSafeChar c = true) :
    jsonLoads (jsonDumps (.arr (ips.map JVal.str))) = some (.arr (ips.map JVal.str)) := by
  have hdata : (jsonDumps (.arr (ips.map JVal.str))).data
      = '[' :: (jdumpElems (ips.map JVal.str) ++ [']']) := by
    simp [jsonDumps, jdump]
  have hlen := jdumpElems_strs_length ips
  have hskip : skipWs ('[' :: (jdumpElems (ips.map JVal.str) ++ [']']))
      = '[' :: (jdumpElems (ips.map JVal.str) ++ [']']) :=
    skipWs_cons_not_ws _ (by decide)
  have hval := parseValue_arr_strs
    (('[' :: (jdumpElems (ips.map JVal.str) ++ [']'])).length + 1) ips hne hsafe
    (by simp only [List.length_cons, List.length_append]; omega)
  unfold jsonLoads
  simp only [hdata, hskip]
  rw [show ('[' :: (jdumpElems (ips.map JVal.str) ++ [']'])).length + 2
      = ('[' :: (jdumpElems (ips.map JVal.str) ++ [']'])).length + 1 + 1 from rfl]
  rw [hval]
  simp [skipWs]

theorem isAddrChar_safe {c : Char} (h : isAddrChar c = true) : jSafeChar c = true := by
  simp only [isAddrChar, Bool.or_eq_true, decide_eq_true_eq] at h
  simp only [jSafeChar, Bool.and_eq_true, decide_eq_true_eq]
  rcases h with h | h | h | h | h | h
  · exact ⟨by omega, by omega, by omega, by omega⟩
  · subst h; refine ⟨by decide, by decide, by decide, by decide⟩
  · exact ⟨by omega, by omega, by omega, by omega⟩
  · exact ⟨by omega, by omega, by omega, by omega⟩
  · subst h; refine ⟨by decide, by decide, by decide, by decide⟩
  · subst h; refine ⟨by decide, by decide, by decide, by decide⟩

/-- C6: at the end of collect_peer_addresses, a single collected address is
returned bare and two or more are returned as the json.dumps of the list in
collection order; decoding that JSON-array string with json.loads yields
exactly the same addresses in the same order (round-trip for two or more).
The addresses are as collected: distinct, accepted by validate_ip_address,
and made of address characters (digits, dots, hex digits, radix markers). -/
theorem C6_peer_encoding_round_trip (ips : List String)
    (hne : ips ≠ []) (hnd : ips.Nodup)
    (hvalid : ∀ ip ∈ ips, inet_aton ip = true)
    (haddr : ∀ ip ∈ ips, ∀ c ∈ ip.data, isAddrChar c = true) :
    (∀ ip, ips = [ip] → encode_peer_addresses ips = ip)
    ∧ (2 ≤ ips.length →
        encode_peer_addresses ips = jsonDumps (.arr (ips.map JVal.str))
        ∧ jsonLoads (encode_peer_addresses ips) = some (.arr (ips.map JVal.str))) := by
  constructor
  · rintro ip rfl
    rfl
  · intro h2
    have hsafe : ∀ ip ∈ ips, ∀ c ∈ ip.data, jSafeChar c = true :=
      fun ip hip c hc => isAddrChar_safe (haddr ip hip c hc)
    have henc : encode_peer_addresses ips = jsonDumps (.arr (ips.map JVal.str)) := by
      match ips, h2 with
      | ip1 :: ip2 :: tl, _ => rfl
    exact ⟨henc, henc ▸ jsonLoads_dumps_arr ips hne hsafe⟩

theorem C6_peer_encoding_round_trip_witness :
    encode_peer_addresses ["10.0.0.1", "10.0.0.2"]
      = jsonDumps (JVal.arr [JVal.str "10.0.0.1", JVal.str "10.0.0.2"])
    ∧ jsonLoads (encode_peer_addresses ["10.0.0.1", "10.0.0.2"])
      = some (JVal.arr [JVal.str "10.0.0.1", JVal.str "10.0.0.2"]) := by
  exact (C6_peer_encoding_round_trip ["10.0.0.1", "10.0.0.2"] (by decide) (by decide)
    (by decide) (by decide)).2 (by decide)

theorem splitOnC_ne_nil (sep : Char) (l : List Char) : splitOnC sep l ≠ [] := by
  cases l with
  | nil => simp [splitOnC]
  | cons c r =>
      simp only [splitOnC]
      cases hs : splitOnC sep r with
      | nil => by_cases hc : c = sep <;> simp [hc]
      | cons p ps => by_cases hc : c = sep <;> simp [hc]

theorem interC_cons_cons (sep : Char) (x y : List Char) (ys : List (List Char)) :
    interC sep (x :: y :: ys) = x ++ sep :: interC sep (y :: ys) := rfl

theorem interC_cons_char (sep c : Char) (p : List Char) (ps : List (List Char)) :
    interC sep ((c :: p) :: ps) = c :: interC sep (p :: ps) := by
  cases ps <;> rfl

theorem interC_splitOnC (sep : Char) (l : List Char) :
    interC sep (splitOnC sep l) = l := by
  induction l with
  | nil => rfl
  | cons c r ih =>
      simp only [splitOnC]
      cases hs : splitOnC sep r with
      | nil => exact absurd hs (splitOnC_ne_nil sep r)
      | cons p ps =>
          rw [hs] at ih
          by_cases hc : c = sep
          · subst hc
            simp only [if_pos rfl]
            show interC c ([] :: p :: ps) = c :: r
            rw [interC_cons_cons, ih]
            rfl
          · simp only [if_neg hc]
            rw [interC_cons_char, ih]

theorem splitOnC_mem_not_sep (sep : Char) (l : List Char) :
    ∀ x ∈ splitOnC sep l, sep ∉ x := by
  induction l with
  | nil =>
      intro x hx
      simp [splitOnC] at hx
      simp [hx]
  | cons c r ih =>
      intro x hx
      cases hs : splitOnC sep r with
      | nil => exact absurd hs (splitOnC_ne_nil sep r)
      | cons p ps =>
          simp only [splitOnC, hs] at hx
          by_cases hc : c = sep
          · rw [if_pos hc] at hx
            rcases List.mem_cons.mp hx with rfl | hx2
            · simp
            · exact ih x (by rw [hs]; exact hx2)
          · rw [if_neg hc] at hx
            rcases List.mem_cons.mp hx with rfl | hx2
            · intro hmem
              rcases List.mem_cons.mp hmem with h | h
              · exact hc h.symm
              · exact ih p (by rw [hs]; simp) h
            · exact ih x (by rw [hs]; exact List.mem_cons_of_mem p hx2)

theorem splitOnC_append_cons (sep : Char) (a b : List Char) (ha : sep ∉ a) :
    splitOnC sep (a ++ sep :: b) = a :: splitOnC sep b := by
  induction a with
  | nil =>
      simp only [List.nil_append, splitOnC]
      cases hs : splitOnC sep b with
      | nil => exact absurd hs (splitOnC_ne_nil sep b)
      | cons p ps => simp
  | cons d a2 ih =>
      have hd : ¬ d = sep := by
        intro h
        exact ha (by simp [h])
      have ha2 : sep ∉ a2 := fun h => ha (by simp [h])
      have ih2 := ih ha2
      simp only [List.cons_append, splitOnC]
      rw [show a2.append (sep :: b) = a2 ++ sep :: b from rfl, ih2]
      simp [hd]

theorem splitOnC_no_sep (sep : Char) (a : List Char) (ha : sep ∉ a) :
    splitOnC sep a = [a] := by
  induction a with
  | nil => rfl
  | cons d a2 ih =>
      have hd : ¬ d = sep := by
        intro h
        exact ha (by simp [h])
      have ha2 : sep ∉ a2 := fun h => ha (by simp [h])
      simp only [splitOnC, ih ha2]
      rw [if_neg hd]

theorem splitOnC_interC (sep : Char) (xs : List (List Char)) (hne : xs ≠ [])
    (hsep : ∀ x ∈ xs, sep ∉ x) :
    splitOnC sep (interC sep xs) = xs := by
  induction xs with
  | nil => exact absurd rfl hne
  | cons x xs2 ih =>
      cases xs2 with
      | nil => exact splitOnC_no_sep sep x (hsep x (by simp))
      | cons y ys =>
          rw [interC_cons_cons]
          rw [splitOnC_append_cons sep x _ (hsep x (by simp))]
          rw [ih (by simp) (fun z hz => hsep z (by simp [hz]))]

theorem fixColonLine_cases (l : List Char) :
    fixColonLine l = (l, false) ∨
    ∃ key value, ':' ∉ key ∧ l = key ++ ':' :: value ∧
      fixColonLine l = (key ++ ':' :: ' ' :: value, true) := by
  by_cases h1 : listContains [':'] l = true ∧ ¬ (pyStrip l).head? = some '#'
  · cases hsp : splitOnC ':' l with
    | nil => exact absurd hsp (splitOnC_ne_nil ':' l)
    | cons key restParts =>
        cases restParts with
        | nil =>
            left
            simp [fixColonLine, h1, hsp]
        | cons r1 rs =>
            by_cases h2 : interC ':' (r1 :: rs) ≠ [] ∧
                ¬ (interC ':' (r1 :: rs)).head? = some ' ' ∧
                ¬ (interC ':' (r1 :: rs)).head? = some '\n'
            · right
              refine ⟨key, interC ':' (r1 :: rs), ?_, ?_, ?_⟩
              · exact splitOnC_mem_not_sep ':' l key (hsp ▸ by simp)
              · have hj := interC_splitOnC ':' l
                rw [hsp, interC_cons_cons] at hj
                exact hj.symm
              · simp [fixColonLine, h1, hsp, h2]
            · left
              simp only [fixColonLine, if_pos h1, hsp]
              simp [h2]
  · left
    simp [fixColonLine, h1]

theorem fixColonLine_idem (l : List Char) :
    fixColonLine ((fixColonLine l).1) = ((fixColonLine l).1, false) := by
  rcases fixColonLine_cases l with h | ⟨key, value, hkey, hl, h⟩
  · rw [h]
    show fixColonLine l = (l, false)
    exact h
  · rw [h]
    show fixColonLine (key ++ ':' :: ' ' :: value) = (key ++ ':' :: ' ' :: value, false)
    by_cases h1 : listContains [':'] (key ++ ':' :: ' ' :: value) = true ∧
        ¬ (pyStrip (key ++ ':' :: ' ' :: value)).head? = some '#'
    · have hsp2 : splitOnC ':' (key ++ ':' :: ' ' :: value)
          = key :: splitOnC ':' (' ' :: value) := splitOnC_append_cons ':' key _ hkey
      have hv : interC ':' (splitOnC ':' (' ' :: value)) = ' ' :: value :=
        interC_splitOnC ':' (' ' :: value)
      cases hs2 : splitOnC ':' (' ' :: value) with
      | nil => exact absurd hs2 (splitOnC_ne_nil _ _)
      | cons q qs =>
          rw [hs2] at hsp2 hv
          simp [fixColonLine, h1, hsp2, hv]
    · simp [fixColonLine, h1]

theorem fixColonLine_no_newline (l : List Char) (h : '\n' ∉ l) :
    '\n' ∉ (fixColonLine l).1 := by
  rcases fixColonLine_cases l with hcase | ⟨key, value, hkey, hl, hcase⟩
  · rw [hcase]
    exact h
  · rw [hcase]
    subst hl
    simp only [List.mem_append, List.mem_cons, not_or] at h ⊢
    exact ⟨h.1, by decide, by decide, h.2.2⟩

theorem fix4_idem (c : List Char) : fix4 ((fix4 c).1) = ((fix4 c).1, false) := by
  have hfst : (fix4 c).1 = interC '\n' (((splitOnC '\n' c).map fixColonLine).map Prod.fst) :=
    rfl
  have hmem : ∀ x ∈ ((splitOnC '\n' c).map fixColonLine).map Prod.fst,
      ∃ l, l ∈ splitOnC '\n' c ∧ x = (fixColonLine l).1 := by
    intro x hx
    rcases List.mem_map.mp hx with ⟨pr, hpr, rfl⟩
    rcases List.mem_map.mp hpr with ⟨l, hl, rfl⟩
    exact ⟨l, hl, rfl⟩
  have hnl : ∀ x ∈ ((splitOnC '\n' c).map fixColonLine).map Prod.fst, '\n' ∉ x := by
    intro x hx
    rcases hmem x hx with ⟨l, hl, rfl⟩
    exact fixColonLine_no_newline l (splitOnC_mem_not_sep '\n' c l hl)
  have hne : ((splitOnC '\n' c).map fixColonLine).map Prod.fst ≠ [] := by
    intro h
    simp only [List.map_eq_nil_iff] at h
    exact splitOnC_ne_nil '\n' c h
  have hsplit := splitOnC_interC '\n' _ hne hnl
  have hcong : (((splitOnC '\n' c).map fixColonLine).map Prod.fst).map fixColonLine
      = (((splitOnC '\n' c).map fixColonLine).map Prod.fst).map (fun x => (x, false)) :=
    List.map_congr_left (fun x hx => by
      rcases hmem x hx with ⟨l, hl, rfl⟩
      exact fixColonLine_idem l)
  rw [hfst]
  show fix4 (interC '\n' (((splitOnC '\n' c).map fixColonLine).map Prod.fst))
      = (interC '\n' (((splitOnC '\n' c).map fixColonLine).map Prod.fst), false)
  simp only [fix4, hsplit, hcong]
  simp [List.map_map, Function.comp]
  rfl

theorem applyFixes_of_clean (c1 : List Char)
    (hbom : c1.head? ≠ some bomChar) (hcrlf : hasCRLF c1 = false)
    (htab : c1.contains '\t' = false) (hfix4 : fix4 c1 = (c1, false)) :
    applyFixes c1 = (c1, []) := by
  cases c1 with
  | nil => simp [applyFixes, hcrlf, htab, hfix4]
  | cons c r =>
      have hc : ¬ c = bomChar := by
        intro h
        exact hbom (by simp [h])
      simp at htab
      simp [applyFixes, hc, hcrlf, htab, hfix4]

theorem applyFixes_fst_shape (c0 : List Char) :
    ∃ s3, (applyFixes c0).1 = (fix4 s3).1 :=
  ⟨_, rfl⟩

/-- C7 counterexample: the repair pipeline is not idempotent on every file it
succeeds on.  Under a validity oracle that accepts the involved strings (both
are genuine YAML: a stream may begin with one byte-order mark), a file that
begins with two byte-order marks has its first run succeed with one mark
stripped, while the second run strips the other: it applies a fix and writes
content that is not byte-identical to the first run's output. -/
theorem C7_not_idempotent_counterexample :
    (auto_fix_yaml_file (fun _ => true) (bomChar :: bomChar :: "k: v\n".data)).success = true
    ∧ (auto_fix_yaml_file (fun _ => true) (bomChar :: bomChar :: "k: v\n".data)).disk
        = bomChar :: "k: v\n".data
    ∧ (applyFixes (bomChar :: "k: v\n".data)).2 ≠ []
    ∧ (auto_fix_yaml_file (fun _ => true) (bomChar :: "k: v\n".data)).disk
        ≠ bomChar :: "k: v\n".data := by
  refine ⟨by decide, by decide, by decide, by decide⟩

/-- C7 (amended): the repair is idempotent on every succeeding run whose
output does not itself begin with a byte-order mark and contains neither a
CRLF sequence nor a tab character (a doubled byte-order mark or a CR-CRLF
run in the original defeats this, as the counterexample shows): the second
run applies no fix, leaves the content byte-identical and reports success. -/
theorem C7_repair_idempotent (yamlValid : List Char → Bool) (c0 : List Char)
    (hsucc : (auto_fix_yaml_file yamlValid c0).success = true)
    (hbom : (auto_fix_yaml_file yamlValid c0).disk.head? ≠ some bomChar)
    (hcrlf : hasCRLF (auto_fix_yaml_file yamlValid c0).disk = false)
    (htab : (auto_fix_yaml_file yamlValid c0).disk.contains '\t' = false) :
    applyFixes ((auto_fix_yaml_file yamlValid c0).disk)
        = ((auto_fix_yaml_file yamlValid c0).disk, [])
    ∧ auto_fix_yaml_file yamlValid ((auto_fix_yaml_file yamlValid c0).disk)
        = ⟨true, (auto_fix_yaml_file yamlValid c0).disk, true⟩ := by
  by_cases hv : yamlValid (applyFixes c0).1 = true
  · have hdisk : (auto_fix_yaml_file yamlValid c0).disk = (applyFixes c0).1 := by
      simp [auto_fix_yaml_file, hv]
    rw [hdisk] at hbom hcrlf htab ⊢
    obtain ⟨s3, hshape⟩ := applyFixes_fst_shape c0
    have hfix : fix4 ((applyFixes c0).1) = ((applyFixes c0).1, false) := by
      rw [hshape]
      exact fix4_idem s3
    have happ := applyFixes_of_clean _ hbom hcrlf htab hfix
    refine ⟨happ, ?_⟩
    simp [auto_fix_yaml_file, happ, hv]
  · exfalso
    rw [Bool.not_eq_true] at hv
    have hfail : (auto_fix_yaml_file yamlValid c0).success = false := by
      simp [auto_fix_yaml_file, hv]
    rw [hfail] at hsucc
    exact absurd hsucc (by simp)

theorem C7_repair_idempotent_witness :
    applyFixes ((auto_fix_yaml_file (fun _ => true) ("a:b\n".data)).disk)
        = ((auto_fix_yaml_file (fun _ => true) ("a:b\n".data)).disk, [])
    ∧ auto_fix_yaml_file (fun _ => true) ((auto_fix_yaml_file (fun _ => true) ("a:b\n".data)).disk)
        = ⟨true, (auto_fix_yaml_file (fun _ => true) ("a:b\n".data)).disk, true⟩ := by
  exact C7_repair_idempotent (fun _ => true) ("a:b\n".data)
    (by decide) (by decide) (by decide) (by decide)

end MA
